import Mathlib

/-!
Verification of `tcp_print2file.c` (kunfoo/tcp_print2file), a single-threaded
daemon that accepts one TCP client at a time and streams the received bytes
into a file.  The development shallowly embeds:

* the per-connection copy loop (line 204 of the source),
* the filesystem effect of `open(filename, O_CREAT|O_WRONLY, S_IRUSR|S_IWUSR)`
  followed by sequential `write`s (lines 197-204),
* the filename selection of lines 185-194 (timestamp path and the
  `file-<random>` fallback probing loop),
* the signal handler `sig_handler` (lines 49-63), and
* a small-step machine of the accept-serve loop of `main` (lines 175-212),
  tracking the open descriptors and the two open-flags `fd_open` and
  `client_connected`.
-/

namespace TcpPrint2File

/-- `#define BUFSIZE 512` (line 40): the size of the transfer buffer `msg`,
and the byte count requested by each `read(client, msg, BUFSIZE)`. -/
def BUFSIZE : Nat := 512

/-- `#define BACKLOG 4` (line 39). -/
def BACKLOG : Nat := 4

/-- The output directory `"/usb/tcp_fileprinter/"` (line 42 of the source,
where it is the printout path macro applied in the `snprintf` calls on
lines 187 and 192). -/
def PRINTOUT_DIR : String := "/usb/tcp_fileprinter/"

/-! ## The copy loop (line 204)

`while((bytes_read = read(client, msg, BUFSIZE)) > 0) write(fd, msg, bytes_read);`

A `ReadRes` records one `read` call's outcome: the return value `ret` and the
bytes `data` the kernel placed in the buffer.  The kernel contract is that a
successful read returns `0 < ret = data.length ≤ BUFSIZE`; `ret = 0` is
end-of-stream, `ret < 0` an error, with no data delivered either way. -/

structure ReadRes where
  ret : Int
  data : List Nat
  deriving DecidableEq, Repr

/-- The loop of line 204, over a schedule of read outcomes: each read with
`ret > 0` causes exactly one `write(fd, msg, bytes_read)` of its `data`; the
first read with `ret ≤ 0` (end-of-stream or error alike) ends the loop.  The
result is the list of write payloads, in order. -/
def copyLoop : List ReadRes → List (List Nat)
  | [] => []
  | r :: rs => if 0 < r.ret then r.data :: copyLoop rs else []

/-- All bytes the copy loop writes to the output file, in order. -/
def bytesWritten (rs : List ReadRes) : List Nat := (copyLoop rs).flatten

/-! ## The filesystem effect (lines 197-204)

A filesystem maps names to file contents.  `open(filename, O_CREAT|O_WRONLY,
S_IRUSR|S_IWUSR)` (line 197) creates an empty file if none exists and
otherwise leaves the existing contents untouched — the flags include neither
`O_TRUNC` nor `O_APPEND`, so writing starts at offset 0 over the old bytes. -/

def Fs : Type := String → Option (List Nat)

/-- The effect of line 197's `open` on the filesystem: with `O_CREAT` the file
exists afterwards; without `O_TRUNC` pre-existing contents are kept. -/
def openAt (fs : Fs) (name : String) : Fs :=
  fun n => if n = name then some ((fs name).getD []) else fs n

/-- One `write` of `c` at offset `off` into contents `old`: bytes are
overwritten in place, bytes beyond the written range survive. -/
def writeAt (old : List Nat) (off : Nat) (c : List Nat) : List Nat :=
  old.take off ++ c ++ old.drop (off + c.length)

/-- Sequential writes starting at offset `off` (the file offset after `open`
without `O_APPEND` is 0, and each write advances it by its length). -/
def runWrites (old : List Nat) (off : Nat) : List (List Nat) → List Nat
  | [] => old
  | c :: cs => runWrites (writeAt old off c) (off + c.length) cs

/-- The whole filesystem effect of one served client whose `open` succeeded
(lines 197-204): open the file, then run the copy loop's writes from
offset 0. -/
def jobRun (fs : Fs) (name : String) (rs : List ReadRes) : Fs :=
  let fs1 := openAt fs name
  fun n => if n = name then some (runWrites ((fs1 name).getD []) 0 (copyLoop rs)) else fs1 n

/-! Basic lemmas about the write model. -/

theorem writeAt_length_ge (old : List Nat) (off : Nat) (c : List Nat)
    (h : off ≤ old.length) : off + c.length ≤ (writeAt old off c).length := by
  simp [writeAt, List.length_take, Nat.min_eq_left h]

theorem runWrites_eq (ws : List (List Nat)) :
    ∀ (old : List Nat) (off : Nat), off ≤ old.length →
      runWrites old off ws = old.take off ++ ws.flatten ++ old.drop (off + ws.flatten.length) := by
  induction ws with
  | nil =>
      intro old off h
      simp [runWrites, List.take_append_drop]
  | cons c cs ih =>
      intro old off h
      have hlen : off + c.length ≤ (writeAt old off c).length := writeAt_length_ge old off c h
      have h1 : (old.take off ++ c).length = off + c.length := by
        simp [List.length_take, Nat.min_eq_left h]
      have hW : writeAt old off c = (old.take off ++ c) ++ old.drop (off + c.length) := by
        simp [writeAt, List.append_assoc]
      rw [runWrites, ih (writeAt old off c) (off + c.length) hlen]
      have htake : (writeAt old off c).take (off + c.length) = old.take off ++ c := by
        rw [hW, show off + c.length = (old.take off ++ c).length from h1.symm, List.take_left]
      have hdrop : ∀ k : Nat,
          (writeAt old off c).drop (off + c.length + k) = old.drop (off + c.length + k) := by
        intro k
        rw [hW, show off + c.length + k = (old.take off ++ c).length + k by rw [h1],
          ← List.drop_drop, List.drop_left, List.drop_drop]
        rw [h1]
      rw [htake, hdrop]
      simp [List.append_assoc, Nat.add_assoc]

/-- From a fresh (empty) file, sequential writes from offset 0 leave exactly
the written bytes. -/
theorem runWrites_nil (ws : List (List Nat)) : runWrites [] 0 ws = ws.flatten := by
  have := runWrites_eq ws [] 0 (by simp)
  simpa using this

theorem copyLoop_clean (chunks : List ReadRes) (t : ReadRes) (rest : List ReadRes)
    (hpos : ∀ r ∈ chunks, 0 < r.ret) (ht : t.ret ≤ 0) :
    copyLoop (chunks ++ t :: rest) = chunks.map ReadRes.data := by
  induction chunks with
  | nil => simp [copyLoop]; omega
  | cons c cs ih =>
      have hc : 0 < c.ret := hpos c (by simp)
      have ihx := ih (fun r hr => hpos r (by simp [hr]))
      simp [copyLoop, hc, ihx]

/-! ## Filename selection (lines 185-194)

```c
tm = localtime(&t);
if ((tm != NULL) && strftime(timestamp, sizeof(timestamp), "%d.%m.%Y-%T", tm)) {
    snprintf(filename, sizeof(filename), "%s%s", PRINTOUT_PREFIX, timestamp);
} else {
    syslog(LOG_WARNING, "error getting current time\n");
    do {
        random = rand();
        snprintf(filename, sizeof(filename), "%sfile-%i", PRINTOUT_PREFIX, random);
    } while ( access(filename, F_OK) != -1 );
}
```

The variable `t` here is assigned exactly once in the whole program, by
`time_t t = time(NULL);` on line 138 at the top of `main`, before
daemonization and before the accept loop; no statement ever reassigns it.
`localtime`/`strftime` are libc, modelled as a parameter
`fmtTime : Int → Option String` (`none` = `localtime` returned NULL or
`strftime` returned 0); `access(·, F_OK) != -1` is the existence probe,
modelled as `ex : String → Bool`; successive `rand()` results are a list. -/

/-- The name the fallback branch builds from one `rand()` result `r`
(line 192): the output directory followed by `file-` and the decimal
rendering of `r`. -/
def fallbackName (r : Int) : String := PRINTOUT_DIR ++ "file-" ++ toString r

/-- The `do { random = rand(); ... } while (access(filename, F_OK) != -1)`
loop of lines 190-193: draw the next random, build its name, and accept it
exactly when no file of that name exists; otherwise try the next random.
`none` models exhausting the (in C unbounded) supply of randoms. -/
def fallbackLoop (ex : String → Bool) : List Int → Option String
  | [] => none
  | r :: rs =>
      if ex (fallbackName r) then fallbackLoop ex rs else some (fallbackName r)

/-- Lines 185-194 as a whole: if `localtime`+`strftime` succeed on `t`, the
name is the directory followed by the timestamp; otherwise run the fallback
loop.  Per line 138, the `t` passed here is the one `time(NULL)` result
captured at process start. -/
def selectFilename (fmtTime : Int → Option String) (t : Int)
    (ex : String → Bool) (randoms : List Int) : Option String :=
  match fmtTime t with
  | some ts => some (PRINTOUT_DIR ++ ts)
  | none => fallbackLoop ex randoms

/-- Wall-clock model: `startTime` is the value `time(NULL)` returned on
line 138 (process start); `acceptTime k` is the wall-clock instant at which
the `k`-th connection is accepted (line 177) — the program never reads it. -/
structure ClockEnv where
  startTime : Int
  acceptTime : Nat → Int

/-- The filename chosen for the `k`-th accepted connection.  Faithful to the
source: every iteration of the accept loop evaluates lines 185-194 on the
same `t` of line 138, i.e. on `env.startTime`; the connection index `k` and
`env.acceptTime` do not enter. -/
def filenameOfConn (env : ClockEnv) (fmtTime : Int → Option String)
    (ex : String → Bool) (randoms : List Int) (k : Nat) : Option String :=
  selectFilename fmtTime env.startTime ex randoms

/-- A name the fallback loop accepts was probed: no file of that name
existed. -/
theorem fallbackLoop_not_exists (ex : String → Bool) (rs : List Int) (n : String)
    (h : fallbackLoop ex rs = some n) : ex n = false := by
  induction rs with
  | nil => simp [fallbackLoop] at h
  | cons r rs ih =>
      by_cases hex : ex (fallbackName r)
      · exact ih (by simpa [fallbackLoop, hex] using h)
      · simp [fallbackLoop, hex] at h
        subst h
        simpa using hex

/-- A name the fallback loop accepts comes from one of the drawn randoms,
in the `file-<random-int>` shape. -/
theorem fallbackLoop_shape (ex : String → Bool) (rs : List Int) (n : String)
    (h : fallbackLoop ex rs = some n) : ∃ r, r ∈ rs ∧ n = fallbackName r := by
  induction rs with
  | nil => simp [fallbackLoop] at h
  | cons r rs ih =>
      by_cases hex : ex (fallbackName r)
      · obtain ⟨r', hr', hn⟩ := ih (by simpa [fallbackLoop, hex] using h)
        exact ⟨r', by simp [hr'], hn⟩
      · simp [fallbackLoop, hex] at h
        exact ⟨r, by simp, h.symm⟩

/-! ## The accept-serve loop as a small-step machine (lines 175-212)

Process-global state of the C program: the descriptors `fd`, `sd`, `client`
(line 45) and the flags `fd_open`, `client_connected` (line 46).  The machine
additionally tracks which descriptors are really open (`openClients`,
`openFiles`, `sdOpen`) — the ground truth the flags are supposed to mirror —
a fresh-descriptor counter, and the syslog stream.  One step is one statement
of the loop body, so a state exists for every point at which the
asynchronous signal handler may run. -/

inductive LogEv where
  | warnAccept                -- line 178
  | infoAccepted              -- line 182
  | warnTime                  -- line 189
  | infoStart                 -- line 196
  | warnOpen                  -- line 198
  | infoDone                  -- line 206
  | noticeSignal (n : Nat)    -- line 51
  | syncEv                    -- line 52, sync()
  | warnCloseClient           -- line 55
  | warnCloseFd               -- line 58
  | warnCloseSd               -- line 60
  deriving DecidableEq, Repr

/-- Program points of the loop body, each naming the statement about to be
executed. -/
inductive PC where
  | accept       -- line 177: accept(sd, NULL, NULL)
  | setConn      -- line 183: client_connected = 1
  | selectName   -- lines 185-194: filename selection
  | openF        -- line 197: open(filename, O_CREAT|O_WRONLY, ...)
  | setFd        -- line 202: fd_open = 1
  | copy         -- line 204: the read/write loop
  | closeFd      -- line 208: close(fd)
  | closeClient  -- line 209: close(client)
  | clearFd      -- line 210: fd_open = 0
  | clearConn    -- line 211: client_connected = 0
  deriving DecidableEq, Repr

structure St where
  pc : PC
  client : Nat                 -- value of the variable `client` (line 45)
  fd : Nat                     -- value of the variable `fd` (line 45)
  fd_open : Bool               -- line 46
  client_connected : Bool      -- line 46
  openClients : List Nat       -- client-socket descriptors actually open
  openFiles : List Nat         -- output-file descriptors actually open
  sdOpen : Bool                -- the listening socket is open
  nextDesc : Nat               -- fresh-descriptor supply
  filename : String            -- the buffer `filename` (line 136)
  exitCode : Option Nat        -- some c once the process exited
  log : List LogEv             -- syslog, newest first
  deriving DecidableEq, Repr

/-- The state right after `listen` succeeds (line 173): statics are zeroed,
no client, no file, listener open. -/
def initSt : St :=
  { pc := PC.accept, client := 0, fd := 0, fd_open := false,
    client_connected := false, openClients := [], openFiles := [],
    sdOpen := true, nextDesc := 1, filename := "", exitCode := none,
    log := [] }

/-- `sig_handler` (lines 49-63): log the signal, `sync()`, close the client
socket if `client_connected`, close `fd` if `fd_open`, close `sd`
unconditionally, `exit(EXIT_SUCCESS)`.  A `close` of a descriptor that is
not open fails and is logged as a warning; no failure changes the exit
status. -/
def sig_handler (s : St) (signum : Nat) : St :=
  let l1 := LogEv.syncEv :: LogEv.noticeSignal signum :: s.log
  let clientRes :=
    if s.client_connected then
      (s.openClients.erase s.client,
       if s.client ∈ s.openClients then l1 else LogEv.warnCloseClient :: l1)
    else (s.openClients, l1)
  let fdRes :=
    if s.fd_open then
      (s.openFiles.erase s.fd,
       if s.fd ∈ s.openFiles then clientRes.2 else LogEv.warnCloseFd :: clientRes.2)
    else (s.openFiles, clientRes.2)
  let l3 := if s.sdOpen then fdRes.2 else LogEv.warnCloseSd :: fdRes.2
  { s with openClients := clientRes.1, openFiles := fdRes.1, sdOpen := false,
           exitCode := some 0, log := l3 }

/-- Environment events driving one statement of the loop, plus the
asynchronous signal. -/
inductive Ev where
  | acceptFail                -- accept returns -1 (lines 177-180)
  | acceptOk                  -- accept succeeds (line 177)
  | setConn                   -- line 183
  | selectName (name : String)  -- lines 185-196 yield this filename
  | openFail                  -- open returns -1 (lines 197-200)
  | openOk                    -- open succeeds (line 197)
  | setFd                     -- line 202
  | copyDone                  -- line 204's loop runs until read ≤ 0
  | closeFd                   -- line 208
  | closeClient               -- line 209
  | clearFd                   -- line 210
  | clearConn                 -- line 211
  | signal (n : Nat)          -- SIGHUP/SIGINT/SIGTERM delivered here
  deriving DecidableEq, Repr

/-- One step of the program.  `none` = the event is not enabled at this
program point (or the process has already exited). -/
def step (s : St) (e : Ev) : Option St :=
  if s.exitCode.isSome then none else
  match e with
  | Ev.acceptFail =>
      if s.pc = PC.accept then
        some { s with log := LogEv.warnAccept :: s.log }    -- warn, continue
      else none
  | Ev.acceptOk =>
      if s.pc = PC.accept then
        some { s with pc := PC.setConn, client := s.nextDesc,
                      openClients := s.nextDesc :: s.openClients,
                      nextDesc := s.nextDesc + 1,
                      log := LogEv.infoAccepted :: s.log }
      else none
  | Ev.setConn =>
      if s.pc = PC.setConn then
        some { s with pc := PC.selectName, client_connected := true }
      else none
  | Ev.selectName name =>
      if s.pc = PC.selectName then
        some { s with pc := PC.openF, filename := name,
                      log := LogEv.infoStart :: s.log }
      else none
  | Ev.openFail =>
      if s.pc = PC.openF then
        some { s with pc := PC.accept, log := LogEv.warnOpen :: s.log }  -- warn, continue
      else none
  | Ev.openOk =>
      if s.pc = PC.openF then
        some { s with pc := PC.setFd, fd := s.nextDesc,
                      openFiles := s.nextDesc :: s.openFiles,
                      nextDesc := s.nextDesc + 1 }
      else none
  | Ev.setFd =>
      if s.pc = PC.setFd then
        some { s with pc := PC.copy, fd_open := true }
      else none
  | Ev.copyDone =>
      if s.pc = PC.copy then
        some { s with pc := PC.closeFd, log := LogEv.infoDone :: s.log }
      else none
  | Ev.closeFd =>
      if s.pc = PC.closeFd then
        some { s with pc := PC.closeClient, openFiles := s.openFiles.erase s.fd }
      else none
  | Ev.closeClient =>
      if s.pc = PC.closeClient then
        some { s with pc := PC.clearFd, openClients := s.openClients.erase s.client }
      else none
  | Ev.clearFd =>
      if s.pc = PC.clearFd then
        some { s with pc := PC.clearConn, fd_open := false }
      else none
  | Ev.clearConn =>
      if s.pc = PC.clearConn then
        some { s with pc := PC.accept, client_connected := false }
      else none
  | Ev.signal n => some (sig_handler s n)

/-- Run a list of events from a state. -/
def run (s : St) : List Ev → Option St
  | [] => some s
  | e :: es =>
      match step s e with
      | some s2 => run s2 es
      | none => none

/-- States the program can actually be in. -/
def Reachable (s : St) : Prop := ∃ evs, run initSt evs = some s

theorem run_append (evs1 evs2 : List Ev) :
    ∀ s : St, run s (evs1 ++ evs2) =
      match run s evs1 with
      | some s2 => run s2 evs2
      | none => none := by
  induction evs1 with
  | nil => intro s; simp [run]
  | cons e es ih =>
      intro s
      simp only [List.cons_append, run]
      cases step s e with
      | none => simp
      | some s2 => exact ih s2

/-- Generic preservation of a predicate along `run`. -/
theorem run_preserve (P : St → Prop)
    (hP : ∀ s e s2, step s e = some s2 → P s → P s2) :
    ∀ (evs : List Ev) (s s2 : St), run s evs = some s2 → P s → P s2 := by
  intro evs
  induction evs with
  | nil => intro s s2 h hp; simp [run] at h; exact h ▸ hp
  | cons e es ih =>
      intro s s2 h hp
      simp only [run] at h
      cases hst : step s e with
      | none => rw [hst] at h; exact absurd h (by simp)
      | some s1 =>
          rw [hst] at h
          exact ih s1 s2 h (hP s e s1 hst hp)

/-! ## Invariants of the machine -/

/-- All tracked descriptor values are below the fresh counter. -/
def descBound (s : St) : Prop :=
  s.client < s.nextDesc ∧ s.fd < s.nextDesc ∧
  (∀ d ∈ s.openClients, d < s.nextDesc) ∧ (∀ d ∈ s.openFiles, d < s.nextDesc)

/-- Between line 183's `client_connected = 1` and line 211's
`client_connected = 0`, the flag is set. -/
def pcFlag (s : St) : Prop :=
  match s.pc with
  | PC.selectName | PC.openF | PC.setFd | PC.copy | PC.closeFd
  | PC.closeClient | PC.clearFd | PC.clearConn => s.client_connected = true
  | _ => True

/-- Between a successful `accept` and line 209's `close(client)`, the
current client descriptor is open. -/
def clientMem (s : St) : Prop :=
  match s.pc with
  | PC.setConn | PC.selectName | PC.openF | PC.setFd | PC.copy
  | PC.closeFd | PC.closeClient => s.client ∈ s.openClients
  | _ => True

/-- The exact shape of the set of open output files at each program point:
exactly the current `fd` between a successful `open` (line 197) and
`close(fd)` (line 208), empty elsewhere. -/
def filesShape (s : St) : Prop :=
  match s.pc with
  | PC.setFd | PC.copy | PC.closeFd => s.openFiles = [s.fd]
  | _ => s.openFiles = []

/-- The machine invariant.  After exit only the file bound is retained. -/
def Inv (s : St) : Prop :=
  match s.exitCode with
  | some _ => s.openFiles.length ≤ 1
  | none => descBound s ∧ pcFlag s ∧ clientMem s ∧ filesShape s

theorem filesShape_length_le (s : St) (h : filesShape s) :
    s.openFiles.length ≤ 1 := by
  unfold filesShape at h
  split at h <;> simp [h]

theorem step_inv (s : St) (e : Ev) (s2 : St)
    (hst : step s e = some s2) (hi : Inv s) : Inv s2 := by
  unfold step at hst
  by_cases hex : s.exitCode.isSome
  · simp [hex] at hst
  · have hnone : s.exitCode = none := by
      cases hc : s.exitCode
      · rfl
      · rw [hc] at hex; simp at hex
    simp only [hex, if_false] at hst
    rw [Inv, hnone] at hi
    obtain ⟨hdb, hfl, hcm, hfs⟩ := hi
    obtain ⟨hdb1, hdb2, hdb3, hdb4⟩ := hdb
    cases e with
    | signal n =>
        simp only [] at hst
        obtain rfl : sig_handler s n = s2 := by
          injection hst
        have hle : s.openFiles.length ≤ 1 := filesShape_length_le s hfs
        have hfiles : (sig_handler s n).openFiles =
            (if s.fd_open then s.openFiles.erase s.fd else s.openFiles) := by
          unfold sig_handler
          by_cases hfo : s.fd_open <;> simp [hfo]
        show (sig_handler s n).openFiles.length ≤ 1
        rw [hfiles]
        by_cases hfo : s.fd_open
        · simp only [hfo, if_true]
          exact le_trans (List.Sublist.length_le (List.erase_sublist _ _)) hle
        · simp only [hfo, if_false]
          exact hle
    | acceptFail =>
        by_cases hpc : s.pc = PC.accept
        · simp only [hpc, if_pos, if_true] at hst
          obtain rfl : _ = s2 := by injection hst
          rw [Inv, hnone]
          refine ⟨⟨hdb1, hdb2, hdb3, hdb4⟩, ?_, ?_, ?_⟩ <;>
            simp_all [pcFlag, clientMem, filesShape, hpc]
        · simp [hpc] at hst
    | acceptOk =>
        by_cases hpc : s.pc = PC.accept
        · simp only [hpc, if_pos, if_true] at hst
          obtain rfl : _ = s2 := by injection hst
          rw [Inv, hnone]
          refine ⟨⟨?_, ?_, ?_, ?_⟩, ?_, ?_, ?_⟩
          · simp
          · simp; omega
          · intro d hd
            simp at hd
            rcases hd with h | h
            · show d < s.nextDesc + 1
              omega
            · exact lt_trans (hdb3 d h) (Nat.lt_succ_self _)
          · intro d hd
            exact lt_trans (hdb4 d hd) (Nat.lt_succ_self _)
          · simp [pcFlag]
          · simp [clientMem]
          · rw [filesShape] at hfs ⊢
            simp only [hpc] at hfs
            simpa using hfs
        · simp [hpc] at hst
    | setConn =>
        by_cases hpc : s.pc = PC.setConn
        · simp only [hpc, if_pos, if_true] at hst
          obtain rfl : _ = s2 := by injection hst
          rw [Inv, hnone]
          refine ⟨⟨hdb1, hdb2, hdb3, hdb4⟩, by simp [pcFlag], ?_, ?_⟩
          · rw [clientMem] at hcm ⊢
            simp only [hpc] at hcm
            simpa using hcm
          · rw [filesShape] at hfs ⊢
            simp only [hpc] at hfs
            simpa using hfs
        · simp [hpc] at hst
    | selectName name =>
        by_cases hpc : s.pc = PC.selectName
        · simp only [hpc, if_pos, if_true] at hst
          obtain rfl : _ = s2 := by injection hst
          rw [Inv, hnone]
          rw [pcFlag] at hfl
          rw [clientMem] at hcm
          rw [filesShape] at hfs
          simp only [hpc] at hfl hcm hfs
          exact ⟨⟨hdb1, hdb2, hdb3, hdb4⟩, by simpa [pcFlag] using hfl,
            by simpa [clientMem] using hcm, by simpa [filesShape] using hfs⟩
        · simp [hpc] at hst
    | openFail =>
        by_cases hpc : s.pc = PC.openF
        · simp only [hpc, if_pos, if_true] at hst
          obtain rfl : _ = s2 := by injection hst
          rw [Inv, hnone]
          rw [filesShape] at hfs
          simp only [hpc] at hfs
          exact ⟨⟨hdb1, hdb2, hdb3, hdb4⟩, by simp [pcFlag],
            by simp [clientMem], by simpa [filesShape] using hfs⟩
        · simp [hpc] at hst
    | openOk =>
        by_cases hpc : s.pc = PC.openF
        · simp only [hpc, if_pos, if_true] at hst
          obtain rfl : _ = s2 := by injection hst
          rw [Inv, hnone]
          rw [pcFlag] at hfl
          rw [clientMem] at hcm
          rw [filesShape] at hfs
          simp only [hpc] at hfl hcm hfs
          refine ⟨⟨Nat.lt_succ_of_lt hdb1, Nat.lt_succ_self _, ?_, ?_⟩,
            by simpa [pcFlag] using hfl, by simpa [clientMem] using hcm, ?_⟩
          · intro d hd
            exact lt_trans (hdb3 d hd) (Nat.lt_succ_self _)
          · intro d hd
            simp at hd
            rcases hd with h | h
            · show d < s.nextDesc + 1
              omega
            · exact lt_trans (hdb4 d h) (Nat.lt_succ_self _)
          · simp [filesShape, hfs]
        · simp [hpc] at hst
    | setFd =>
        by_cases hpc : s.pc = PC.setFd
        · simp only [hpc, if_pos, if_true] at hst
          obtain rfl : _ = s2 := by injection hst
          rw [Inv, hnone]
          rw [pcFlag] at hfl
          rw [clientMem] at hcm
          rw [filesShape] at hfs
          simp only [hpc] at hfl hcm hfs
          exact ⟨⟨hdb1, hdb2, hdb3, hdb4⟩, by simpa [pcFlag] using hfl,
            by simpa [clientMem] using hcm, by simpa [filesShape] using hfs⟩
        · simp [hpc] at hst
    | copyDone =>
        by_cases hpc : s.pc = PC.copy
        · simp only [hpc, if_pos, if_true] at hst
          obtain rfl : _ = s2 := by injection hst
          rw [Inv, hnone]
          rw [pcFlag] at hfl
          rw [clientMem] at hcm
          rw [filesShape] at hfs
          simp only [hpc] at hfl hcm hfs
          exact ⟨⟨hdb1, hdb2, hdb3, hdb4⟩, by simpa [pcFlag] using hfl,
            by simpa [clientMem] using hcm, by simpa [filesShape] using hfs⟩
        · simp [hpc] at hst
    | closeFd =>
        by_cases hpc : s.pc = PC.closeFd
        · simp only [hpc, if_pos, if_true] at hst
          obtain rfl : _ = s2 := by injection hst
          rw [Inv, hnone]
          rw [pcFlag] at hfl
          rw [clientMem] at hcm
          rw [filesShape] at hfs
          simp only [hpc] at hfl hcm hfs
          refine ⟨⟨hdb1, hdb2, ?_, ?_⟩, by simpa [pcFlag] using hfl,
            by simpa [clientMem] using hcm, ?_⟩
          · intro d hd
            exact hdb3 d hd
          · intro d hd
            exact hdb4 d (List.mem_of_mem_erase hd)
          · simp [filesShape, hfs]
        · simp [hpc] at hst
    | closeClient =>
        by_cases hpc : s.pc = PC.closeClient
        · simp only [hpc, if_pos, if_true] at hst
          obtain rfl : _ = s2 := by injection hst
          rw [Inv, hnone]
          rw [pcFlag] at hfl
          rw [filesShape] at hfs
          simp only [hpc] at hfl hfs
          refine ⟨⟨hdb1, hdb2, ?_, hdb4⟩, by simpa [pcFlag] using hfl,
            by simp [clientMem], by simpa [filesShape] using hfs⟩
          intro d hd
          exact hdb3 d (List.mem_of_mem_erase hd)
        · simp [hpc] at hst
    | clearFd =>
        by_cases hpc : s.pc = PC.clearFd
        · simp only [hpc, if_pos, if_true] at hst
          obtain rfl : _ = s2 := by injection hst
          rw [Inv, hnone]
          rw [pcFlag] at hfl
          rw [filesShape] at hfs
          simp only [hpc] at hfl hfs
          exact ⟨⟨hdb1, hdb2, hdb3, hdb4⟩, by simpa [pcFlag] using hfl,
            by simp [clientMem], by simpa [filesShape] using hfs⟩
        · simp [hpc] at hst
    | clearConn =>
        by_cases hpc : s.pc = PC.clearConn
        · simp only [hpc, if_pos, if_true] at hst
          obtain rfl : _ = s2 := by injection hst
          rw [Inv, hnone]
          rw [filesShape] at hfs
          simp only [hpc] at hfs
          exact ⟨⟨hdb1, hdb2, hdb3, hdb4⟩, by simp [pcFlag],
            by simp [clientMem], by simpa [filesShape] using hfs⟩
        · simp [hpc] at hst

theorem inv_init : Inv initSt := by
  rw [Inv]
  simp [initSt, descBound, pcFlag, clientMem, filesShape]

theorem reachable_inv (s : St) (h : Reachable s) : Inv s := by
  obtain ⟨evs, hrun⟩ := h
  exact run_preserve Inv step_inv evs initSt s hrun inv_init

/-- A socket descriptor that is open but is no longer the value of the
variable `client` can never be closed again by the program: only
`close(client)` (line 209) and the signal handler's `close(client)`
(line 55) remove sockets, and both close the current `client` only. -/
theorem step_leaked (d : Nat) (s : St) (e : Ev) (s2 : St)
    (hst : step s e = some s2) (hi : Inv s)
    (hl : d ∈ s.openClients ∧ d ≠ s.client) :
    d ∈ s2.openClients ∧ d ≠ s2.client := by
  unfold step at hst
  by_cases hex : s.exitCode.isSome
  · simp [hex] at hst
  · have hnone : s.exitCode = none := by
      cases hc : s.exitCode
      · rfl
      · rw [hc] at hex; simp at hex
    simp only [hex, if_false] at hst
    rw [Inv, hnone] at hi
    have hdb3 := hi.1.2.2.1
    cases e with
    | acceptFail =>
        by_cases hpc : s.pc = PC.accept
        · simp only [hpc, if_pos, if_true] at hst
          obtain rfl : _ = s2 := by injection hst
          exact hl
        · simp [hpc] at hst
    | acceptOk =>
        by_cases hpc : s.pc = PC.accept
        · simp only [hpc, if_pos, if_true] at hst
          obtain rfl : _ = s2 := by injection hst
          refine ⟨List.mem_cons_of_mem _ hl.1, ?_⟩
          have hlt : d < s.nextDesc := hdb3 d hl.1
          show d ≠ s.nextDesc
          omega
        · simp [hpc] at hst
    | setConn =>
        by_cases hpc : s.pc = PC.setConn
        · simp only [hpc, if_pos, if_true] at hst
          obtain rfl : _ = s2 := by injection hst
          exact hl
        · simp [hpc] at hst
    | selectName name =>
        by_cases hpc : s.pc = PC.selectName
        · simp only [hpc, if_pos, if_true] at hst
          obtain rfl : _ = s2 := by injection hst
          exact hl
        · simp [hpc] at hst
    | openFail =>
        by_cases hpc : s.pc = PC.openF
        · simp only [hpc, if_pos, if_true] at hst
          obtain rfl : _ = s2 := by injection hst
          exact hl
        · simp [hpc] at hst
    | openOk =>
        by_cases hpc : s.pc = PC.openF
        · simp only [hpc, if_pos, if_true] at hst
          obtain rfl : _ = s2 := by injection hst
          exact hl
        · simp [hpc] at hst
    | setFd =>
        by_cases hpc : s.pc = PC.setFd
        · simp only [hpc, if_pos, if_true] at hst
          obtain rfl : _ = s2 := by injection hst
          exact hl
        · simp [hpc] at hst
    | copyDone =>
        by_cases hpc : s.pc = PC.copy
        · simp only [hpc, if_pos, if_true] at hst
          obtain rfl : _ = s2 := by injection hst
          exact hl
        · simp [hpc] at hst
    | closeFd =>
        by_cases hpc : s.pc = PC.closeFd
        · simp only [hpc, if_pos, if_true] at hst
          obtain rfl : _ = s2 := by injection hst
          exact hl
        · simp [hpc] at hst
    | closeClient =>
        by_cases hpc : s.pc = PC.closeClient
        · simp only [hpc, if_pos, if_true] at hst
          obtain rfl : _ = s2 := by injection hst
          exact ⟨(List.mem_erase_of_ne hl.2).mpr hl.1, hl.2⟩
        · simp [hpc] at hst
    | clearFd =>
        by_cases hpc : s.pc = PC.clearFd
        · simp only [hpc, if_pos, if_true] at hst
          obtain rfl : _ = s2 := by injection hst
          exact hl
        · simp [hpc] at hst
    | clearConn =>
        by_cases hpc : s.pc = PC.clearConn
        · simp only [hpc, if_pos, if_true] at hst
          obtain rfl : _ = s2 := by injection hst
          exact hl
        · simp [hpc] at hst
    | signal n =>
        simp only [] at hst
        obtain rfl : sig_handler s n = s2 := by injection hst
        have hoc : (sig_handler s n).openClients =
            (if s.client_connected then s.openClients.erase s.client
             else s.openClients) := by
          unfold sig_handler
          by_cases hcc : s.client_connected <;> simp [hcc]
        refine ⟨?_, hl.2⟩
        show d ∈ (sig_handler s n).openClients
        rw [hoc]
        by_cases hcc : s.client_connected
        · simp only [hcc, if_true]
          exact (List.mem_erase_of_ne hl.2).mpr hl.1
        · simp only [hcc, if_false]
          exact hl.1

/-- Leaked-socket persistence lifted to runs. -/
theorem run_leaked (d : Nat) (evs : List Ev) (s s2 : St)
    (hrun : run s evs = some s2)
    (h : Inv s ∧ (d ∈ s.openClients ∧ d ≠ s.client)) :
    Inv s2 ∧ (d ∈ s2.openClients ∧ d ≠ s2.client) :=
  run_preserve (fun t => Inv t ∧ (d ∈ t.openClients ∧ d ≠ t.client))
    (fun t e t2 hst hp =>
      ⟨step_inv t e t2 hst hp.1, step_leaked d t e t2 hst hp.1 hp.2⟩)
    evs s s2 hrun h

/-! ## Claim theorems -/

/-- C1: for every byte sequence S delivered by a client whose transfer runs
to completion (all reads return positive counts carrying S's bytes in order,
then a clean close makes `read` return 0) and whose output file was
successfully opened, the bytes written by the copy loop equal S exactly and
in order; on a fresh file the resulting contents are exactly S. -/
theorem clean_transfer_writes_exact
    (chunks : List ReadRes) (t : ReadRes) (S : List Nat)
    (hpos : ∀ r ∈ chunks, 0 < r.ret)
    (ht : t.ret = 0)
    (hS : (chunks.map ReadRes.data).flatten = S)
    (fs : Fs) (name : String) (hfresh : fs name = none) :
    bytesWritten (chunks ++ [t]) = S ∧
    jobRun fs name (chunks ++ [t]) name = some S := by
  have hcl : copyLoop (chunks ++ [t]) = chunks.map ReadRes.data :=
    copyLoop_clean chunks t [] hpos (by omega)
  have hbw : bytesWritten (chunks ++ [t]) = S := by
    rw [bytesWritten, hcl, hS]
  refine ⟨hbw, ?_⟩
  show (let fs1 := openAt fs name
        fun n => if n = name then
          some (runWrites ((fs1 name).getD []) 0 (copyLoop (chunks ++ [t])))
        else fs1 n) name = some S
  simp only [openAt, if_pos rfl, hfresh, Option.getD_none, Option.getD_some, hcl,
    if_true]
  rw [runWrites_nil, hS]

theorem clean_transfer_writes_exact_witness :
    bytesWritten [ReadRes.mk 2 [72, 73], ReadRes.mk 0 []] = [72, 73] ∧
    jobRun (fun _ => none) (PRINTOUT_DIR ++ "x")
      [ReadRes.mk 2 [72, 73], ReadRes.mk 0 []] (PRINTOUT_DIR ++ "x") =
      some [72, 73] :=
  clean_transfer_writes_exact [ReadRes.mk 2 [72, 73]] (ReadRes.mk 0 []) [72, 73]
    (by decide) rfl rfl (fun _ => none) (PRINTOUT_DIR ++ "x") rfl

/-- C6: the copy loop of line 204 asks for at most `BUFSIZE = 512` bytes per
read, ends at the first read returning 0 or a negative value — both
termination causes yielding the same result — and issues exactly one write
per successful read, of exactly that read's bytes (no retry logic). -/
theorem copy_loop_chunks_and_termination
    (pre rest : List ReadRes) (t : ReadRes)
    (hpre : ∀ r ∈ pre, 0 < r.ret ∧ r.data.length ≤ BUFSIZE)
    (ht : t.ret ≤ 0) :
    BUFSIZE = 512 ∧
    copyLoop (pre ++ t :: rest) = pre.map ReadRes.data ∧
    (copyLoop (pre ++ t :: rest)).length = pre.length ∧
    (∀ w ∈ copyLoop (pre ++ t :: rest), w.length ≤ BUFSIZE) ∧
    (∀ (t2 : ReadRes) (rest2 : List ReadRes), t2.ret ≤ 0 →
      copyLoop (pre ++ t2 :: rest2) = copyLoop (pre ++ t :: rest)) := by
  have hcl : copyLoop (pre ++ t :: rest) = pre.map ReadRes.data :=
    copyLoop_clean pre t rest (fun r hr => (hpre r hr).1) ht
  refine ⟨rfl, hcl, by simp [hcl], ?_, ?_⟩
  · intro w hw
    rw [hcl] at hw
    obtain ⟨r, hr, rfl⟩ := List.mem_map.mp hw
    exact (hpre r hr).2
  · intro t2 rest2 ht2
    rw [hcl, copyLoop_clean pre t2 rest2 (fun r hr => (hpre r hr).1) ht2]

theorem copy_loop_chunks_and_termination_witness :
    BUFSIZE = 512 ∧
    copyLoop [ReadRes.mk 1 [9], ReadRes.mk (-1) []] = [[9]] ∧
    (copyLoop [ReadRes.mk 1 [9], ReadRes.mk (-1) []]).length = 1 ∧
    (∀ w ∈ copyLoop [ReadRes.mk 1 [9], ReadRes.mk (-1) []], w.length ≤ BUFSIZE) ∧
    (∀ (t2 : ReadRes) (rest2 : List ReadRes), t2.ret ≤ 0 →
      copyLoop ([ReadRes.mk 1 [9]] ++ t2 :: rest2) =
        copyLoop [ReadRes.mk 1 [9], ReadRes.mk (-1) []]) :=
  copy_loop_chunks_and_termination [ReadRes.mk 1 [9]] [] (ReadRes.mk (-1) [])
    (by decide) (by decide)

/-- C7: a name the fallback generator accepts was probed not to exist, the
name has the shape directory ++ file- ++ random, and two names accepted in
immediate succession — the first file having been created, so that the
second probe sees it — differ. -/
theorem fallback_probes_and_names_differ
    (ex ex2 : String → Bool) (rs rs2 : List Int) (n1 n2 : String)
    (h1 : fallbackLoop ex rs = some n1)
    (hcreated : ex2 n1 = true)
    (h2 : fallbackLoop ex2 rs2 = some n2) :
    ex n1 = false ∧ ex2 n2 = false ∧ n2 ≠ n1 ∧
    (∃ r, r ∈ rs ∧ n1 = fallbackName r) ∧
    (∃ r, r ∈ rs2 ∧ n2 = fallbackName r) := by
  have e1 := fallbackLoop_not_exists ex rs n1 h1
  have e2 := fallbackLoop_not_exists ex2 rs2 n2 h2
  refine ⟨e1, e2, ?_, fallbackLoop_shape ex rs n1 h1, fallbackLoop_shape ex2 rs2 n2 h2⟩
  intro hEq
  rw [hEq] at e2
  rw [e2] at hcreated
  simp at hcreated

theorem fallback_probes_and_names_differ_witness :
    (fun _ => false : String → Bool) (fallbackName 0) = false ∧
    (fun s2 => s2 == fallbackName 0) (fallbackName 1) = false ∧
    fallbackName 1 ≠ fallbackName 0 ∧
    (∃ r, r ∈ [(0 : Int)] ∧ fallbackName 0 = fallbackName r) ∧
    (∃ r, r ∈ [(0 : Int), 1] ∧ fallbackName 1 = fallbackName r) :=
  fallback_probes_and_names_differ (fun _ => false) (fun s2 => s2 == fallbackName 0)
    [0] [0, 1] (fallbackName 0) (fallbackName 1) rfl (by decide) (by decide)

/-- C9: line 197 opens with `O_CREAT|O_WRONLY` and no `O_TRUNC`: a
pre-existing file keeps its contents at open, the job's bytes overwrite in
place from offset 0, and old bytes beyond the new length remain. -/
theorem open_without_truncation (fs : Fs) (name : String) (old : List Nat)
    (rs : List ReadRes) (h : fs name = some old) :
    openAt fs name name = some old ∧
    jobRun fs name rs name =
      some (bytesWritten rs ++ old.drop (bytesWritten rs).length) := by
  constructor
  · simp [openAt, h]
  · show (let fs1 := openAt fs name
          fun n => if n = name then
            some (runWrites ((fs1 name).getD []) 0 (copyLoop rs))
          else fs1 n) name = _
    simp only [openAt, if_pos rfl, h, Option.getD_some]
    have := runWrites_eq (copyLoop rs) old 0 (by omega)
    simpa [bytesWritten] using this

theorem open_without_truncation_witness :
    openAt (fun n => if n = "f" then some [1, 2, 3] else none) "f" "f" = some [1, 2, 3] ∧
    jobRun (fun n => if n = "f" then some [1, 2, 3] else none) "f"
      [ReadRes.mk 1 [9], ReadRes.mk 0 []] "f" = some [9, 2, 3] :=
  open_without_truncation (fun n => if n = "f" then some [1, 2, 3] else none)
    "f" [1, 2, 3] [ReadRes.mk 1 [9], ReadRes.mk 0 []] (by decide)

/-- C8 counterexample: a client sends zero bytes and closes (single read
returning 0), the open succeeds, yet the file afterwards has size 1, not 0 —
because the chosen name already existed with one byte and line 197 does not
truncate.  (Reachable e.g. when two jobs in the same second get the same
timestamp name.) -/
theorem empty_job_zero_size_cex :
    jobRun (fun n => if n = PRINTOUT_DIR ++ "f" then some [55] else none)
      (PRINTOUT_DIR ++ "f") [ReadRes.mk 0 []] (PRINTOUT_DIR ++ "f") = some [55] ∧
    some [55] ≠ some ([] : List Nat) := by
  exact ⟨by decide, by decide⟩

/-- C8 (amended): a zero-byte job whose open succeeded leaves an existing
output file; if no file of the selected name existed beforehand, that file
is empty (size 0). -/
theorem empty_job_yields_existing_file (fs : Fs) (name : String) (t : ReadRes)
    (ht : t.ret = 0) :
    (jobRun fs name [t] name).isSome = true ∧
    (fs name = none → jobRun fs name [t] name = some []) := by
  have hcl : copyLoop [t] = [] := by
    simp [copyLoop, ht]
  constructor
  · show (Option.isSome (if name = name then
      some (runWrites ((openAt fs name name).getD []) 0 (copyLoop [t]))
      else openAt fs name name)) = true
    simp
  · intro hfresh
    show (if name = name then
      some (runWrites ((openAt fs name name).getD []) 0 (copyLoop [t]))
      else openAt fs name name) = some []
    simp [openAt, hfresh, hcl, runWrites]

theorem empty_job_yields_existing_file_witness :
    (jobRun (fun _ => none) (PRINTOUT_DIR ++ "y") [ReadRes.mk 0 []]
      (PRINTOUT_DIR ++ "y")).isSome = true ∧
    ((fun _ => none : Fs) (PRINTOUT_DIR ++ "y") = none →
      jobRun (fun _ => none) (PRINTOUT_DIR ++ "y") [ReadRes.mk 0 []]
        (PRINTOUT_DIR ++ "y") = some []) :=
  empty_job_yields_existing_file (fun _ => none) (PRINTOUT_DIR ++ "y")
    (ReadRes.mk 0 []) rfl

/-- Demonstration clock in which the wall-clock has advanced between the
process start and each accepted connection. -/
def demoClock : ClockEnv :=
  { startTime := 0, acceptTime := fun k => 100 * ((k : Int) + 1) }

/-- An injective-on-these-inputs stand-in for `localtime`+`strftime`. -/
def demoFmt : Int → Option String := fun z => some (toString z)

/-- C2 (refuting the claim on the code): the filename never depends on the
connection index or on the wall-clock at accept time — lines 185-194 format
the one `time(NULL)` value captured at line 138.  Two connections accepted
at different wall-clock instants, which the formatter would render
differently, still receive identical filenames, namely the formatted
process-start time. -/
theorem filename_ignores_accept_time :
    (∀ (env : ClockEnv) (fmtTime : Int → Option String) (ex : String → Bool)
       (rnds : List Int) (k j : Nat),
       filenameOfConn env fmtTime ex rnds k = filenameOfConn env fmtTime ex rnds j) ∧
    demoClock.acceptTime 0 ≠ demoClock.acceptTime 1 ∧
    demoFmt (demoClock.acceptTime 0) ≠ demoFmt (demoClock.acceptTime 1) ∧
    filenameOfConn demoClock demoFmt (fun _ => false) [] 0 =
      filenameOfConn demoClock demoFmt (fun _ => false) [] 1 ∧
    filenameOfConn demoClock demoFmt (fun _ => false) [] 0 =
      some (PRINTOUT_DIR ++ toString demoClock.startTime) := by
  refine ⟨fun env fmtTime ex rnds k j => rfl, by decide, by decide, rfl, rfl⟩

/-- State reached by accept, `client_connected = 1`, filename selection,
open failure, and a second successful accept: two client sockets open. -/
def leakSt : St :=
  { pc := PC.setConn, client := 2, fd := 0, fd_open := false,
    client_connected := true, openClients := [2, 1], openFiles := [],
    sdOpen := true, nextDesc := 3, filename := "f", exitCode := none,
    log := [LogEv.infoAccepted, LogEv.warnOpen, LogEv.infoStart,
            LogEv.infoAccepted] }

/-- State between line 208's `close(fd)` and line 210's `fd_open = 0`: the
flag is still set though the file is already closed. -/
def staleSt : St :=
  { pc := PC.closeClient, client := 1, fd := 2, fd_open := true,
    client_connected := true, openClients := [1], openFiles := [],
    sdOpen := true, nextDesc := 3, filename := "f", exitCode := none,
    log := [LogEv.infoDone, LogEv.infoStart, LogEv.infoAccepted] }

/-- C3 counterexample: the claimed invariant is false in reachable states.
After a file-open failure the loop re-enters accept without closing the
client socket, so a second accept leaves two client sockets open
(`leakSt`); and between `close(fd)` (line 208) and `fd_open = 0`
(line 210) the flag is set while no file is open (`staleSt`). -/
theorem open_flags_invariant_cex :
    (¬ ∀ s : St, Reachable s → s.openClients.length ≤ 1) ∧
    (¬ ∀ s : St, Reachable s → (s.fd_open = true ↔ s.fd ∈ s.openFiles)) := by
  constructor
  · intro h
    have h2 := h leakSt
      ⟨[Ev.acceptOk, Ev.setConn, Ev.selectName "f", Ev.openFail, Ev.acceptOk],
       by decide⟩
    simp [leakSt] at h2
  · intro h
    have h2 := h staleSt
      ⟨[Ev.acceptOk, Ev.setConn, Ev.selectName "f", Ev.openOk, Ev.setFd,
        Ev.copyDone, Ev.closeFd], by decide⟩
    have h3 := h2.mp (by rfl)
    simp [staleSt] at h3

/-- C3 (amended): in every reachable state of the machine — including
states after per-client error paths and after the signal handler ran — at
most one output file is open.  (The analogous bounds for client sockets,
and exact flag accuracy, are refuted by the counterexample.) -/
theorem at_most_one_output_file_open (s : St) (h : Reachable s) :
    s.openFiles.length ≤ 1 := by
  have hi := reachable_inv s h
  rw [Inv] at hi
  cases hc : s.exitCode with
  | none =>
      rw [hc] at hi
      exact filesShape_length_le s hi.2.2.2
  | some c =>
      rw [hc] at hi
      exact hi

theorem at_most_one_output_file_open_witness :
    leakSt.openFiles.length ≤ 1 :=
  at_most_one_output_file_open leakSt
    ⟨[Ev.acceptOk, Ev.setConn, Ev.selectName "f", Ev.openFail, Ev.acceptOk],
     by decide⟩

/-- C4: `sig_handler` (lines 49-63) logs the signal number, flushes
(`sync`), closes the client socket exactly when `client_connected` is set,
closes the output file exactly when `fd_open` is set, closes the listening
socket unconditionally, and exits with status 0; a failing close (the
descriptor was not open) is logged as a warning and the exit status is
still 0. -/
theorem signal_shutdown_spec (s : St) (n : Nat) :
    (sig_handler s n).exitCode = some 0 ∧
    (sig_handler s n).sdOpen = false ∧
    LogEv.noticeSignal n ∈ (sig_handler s n).log ∧
    LogEv.syncEv ∈ (sig_handler s n).log ∧
    (s.client_connected = true →
      (sig_handler s n).openClients = s.openClients.erase s.client) ∧
    (s.client_connected = false →
      (sig_handler s n).openClients = s.openClients) ∧
    (s.fd_open = true →
      (sig_handler s n).openFiles = s.openFiles.erase s.fd) ∧
    (s.fd_open = false → (sig_handler s n).openFiles = s.openFiles) ∧
    (s.client_connected = true → s.client ∉ s.openClients →
      LogEv.warnCloseClient ∈ (sig_handler s n).log) ∧
    (s.fd_open = true → s.fd ∉ s.openFiles →
      LogEv.warnCloseFd ∈ (sig_handler s n).log) ∧
    (s.sdOpen = false → LogEv.warnCloseSd ∈ (sig_handler s n).log) := by
  unfold sig_handler
  by_cases hcc : s.client_connected <;> by_cases hfo : s.fd_open <;>
    by_cases hmc : s.client ∈ s.openClients <;>
    by_cases hmf : s.fd ∈ s.openFiles <;> by_cases hsd : s.sdOpen <;>
    simp [hcc, hfo, hmc, hmf, hsd]

theorem signal_shutdown_spec_witness :
    (sig_handler { initSt with client_connected := true } 2).exitCode = some 0 ∧
    LogEv.warnCloseClient ∈
      (sig_handler { initSt with client_connected := true } 2).log := by
  have h := signal_shutdown_spec { initSt with client_connected := true } 2
  exact ⟨h.1, h.2.2.2.2.2.2.2.2.1 rfl (by decide)⟩

/-- A state at the file-open statement (line 197) used to probe the error
paths. -/
def probeOpenF : St :=
  { pc := PC.openF, client := 1, fd := 0, fd_open := false,
    client_connected := true, openClients := [1], openFiles := [],
    sdOpen := true, nextDesc := 2, filename := "f", exitCode := none,
    log := [] }

/-- C5: a failed accept logs a warning and the loop stays at accept
(line 179's `continue`); a failed file open logs a warning and jumps
straight back to accept (line 199's `continue`) — no file is opened and the
copy statement is never reached for that client, so none of its data is
written — and from there the next client's accept is immediately enabled. -/
theorem recoverable_errors_continue (s : St) (hex : s.exitCode = none) :
    (s.pc = PC.accept →
      step s Ev.acceptFail = some { s with log := LogEv.warnAccept :: s.log }) ∧
    (s.pc = PC.openF →
      step s Ev.openFail =
        some { s with pc := PC.accept, log := LogEv.warnOpen :: s.log } ∧
      { s with pc := PC.accept, log := LogEv.warnOpen :: s.log }.openFiles =
        s.openFiles ∧
      ∃ s3, step { s with pc := PC.accept, log := LogEv.warnOpen :: s.log }
              Ev.acceptOk = some s3 ∧ s3.pc = PC.setConn) := by
  constructor
  · intro hpc
    simp [step, hex, hpc]
  · intro hpc
    refine ⟨by simp [step, hex, hpc], rfl, ?_⟩
    have hstep : step { s with pc := PC.accept, log := LogEv.warnOpen :: s.log }
        Ev.acceptOk =
        some { s with pc := PC.setConn, client := s.nextDesc,
                      openClients := s.nextDesc :: s.openClients,
                      nextDesc := s.nextDesc + 1,
                      log := LogEv.infoAccepted :: LogEv.warnOpen :: s.log } := by
      simp [step, hex]
    exact ⟨_, hstep, rfl⟩

theorem recoverable_errors_continue_witness :
    step probeOpenF Ev.openFail =
      some { probeOpenF with pc := PC.accept, log := [LogEv.warnOpen] } :=
  ((recoverable_errors_continue probeOpenF rfl).2 rfl).1

/-- The state at line 197 reached by the trace accept, flag set,
filename "f" selected. -/
def reachedOpenF : St :=
  { pc := PC.openF, client := 1, fd := 0, fd_open := false,
    client_connected := true, openClients := [1], openFiles := [],
    sdOpen := true, nextDesc := 2, filename := "f", exitCode := none,
    log := [LogEv.infoStart, LogEv.infoAccepted] }

def afterFail : St :=
  { reachedOpenF with pc := PC.accept,
                      log := LogEv.warnOpen :: reachedOpenF.log }

def afterAccept2 : St :=
  { afterFail with pc := PC.setConn, client := 2, openClients := [2, 1],
                   nextDesc := 3, log := LogEv.infoAccepted :: afterFail.log }

/-- C10: when the per-client open fails, the loop re-enters accept without
closing the accepted client socket and without clearing
`client_connected`; after the next successful accept overwrites the
`client` variable, the old socket's descriptor is no longer the program's
current handle and remains open through every subsequent step (the main
loop and the signal handler only ever close the current `client`). -/
theorem open_fail_leaks_client_socket
    (s s1 s3 s4 : St) (evs : List Ev)
    (hr : Reachable s) (hpc : s.pc = PC.openF)
    (h1 : step s Ev.openFail = some s1)
    (h3 : step s1 Ev.acceptOk = some s3)
    (h4 : run s3 evs = some s4) :
    s1.pc = PC.accept ∧ s1.client_connected = true ∧
    s1.openClients = s.openClients ∧ s1.client = s.client ∧
    s3.client ≠ s.client ∧ s.client ∈ s4.openClients := by
  have hi0 := reachable_inv s hr
  have hex : s.exitCode = none := by
    cases hc : s.exitCode with
    | none => rfl
    | some c =>
        unfold step at h1
        rw [hc] at h1
        simp at h1
  have hi := hi0
  rw [Inv, hex] at hi
  obtain ⟨hdb, hfl, hcm, hfs⟩ := hi
  have hflag : s.client_connected = true := by
    rw [pcFlag] at hfl
    simp only [hpc] at hfl
    exact hfl
  have hmem : s.client ∈ s.openClients := by
    rw [clientMem] at hcm
    simp only [hpc] at hcm
    exact hcm
  have hcn : s.client < s.nextDesc := hdb.1
  have hInv1 : Inv s1 := step_inv s Ev.openFail s1 h1 hi0
  have hInv3 : Inv s3 := step_inv s1 Ev.acceptOk s3 h3 hInv1
  unfold step at h1
  simp only [hex, Option.isSome_none, Bool.false_eq_true, if_false, hpc,
    if_pos, if_true, Option.some.injEq] at h1
  subst h1
  unfold step at h3
  simp only [hex, Option.isSome_none, Bool.false_eq_true, if_false, if_pos,
    if_true, Option.some.injEq] at h3
  subst h3
  have hleak : s.client ∈ (s.nextDesc :: s.openClients) ∧ s.client ≠ s.nextDesc := by
    exact ⟨List.mem_cons_of_mem _ hmem, by omega⟩
  have hfin := run_leaked s.client evs _ s4 h4 ⟨hInv3, hleak⟩
  refine ⟨rfl, hflag, rfl, rfl, ?_, hfin.2.1⟩
  show s.nextDesc ≠ s.client
  omega

theorem open_fail_leaks_client_socket_witness :
    afterFail.pc = PC.accept ∧ afterFail.client_connected = true ∧
    afterFail.openClients = reachedOpenF.openClients ∧
    afterFail.client = reachedOpenF.client ∧
    afterAccept2.client ≠ reachedOpenF.client ∧
    reachedOpenF.client ∈ afterAccept2.openClients :=
  open_fail_leaks_client_socket reachedOpenF afterFail afterAccept2 afterAccept2 []
    ⟨[Ev.acceptOk, Ev.setConn, Ev.selectName "f"], by decide⟩
    rfl (by decide) (by decide) rfl

end TcpPrint2File
